import Mathlib

/-! Verification development for a small vector-database wrapper
(vectordb.py): text chunking, per-run chunk identity assignment,
metadata augmentation, batched document ingestion and query-result
normalization. The external collaborators (embedding model, storage
engine, text splitter) are modelled as explicit function-valued
parameters of the pipeline, and each ingestion or query call is
modelled as a pure function returning the ordered list of collaborator
calls it issued (its trace), the store writes it performed, and its
error outcome. -/

/-- Decimal digit list of a natural number, a model of Python's string
formatting of a nonnegative int. Fuel-driven (fuel equals the number
itself) so that it is structurally recursive and reduces by rfl. -/
def natDigitsAux : Nat → Nat → List Char
  | 0, n => [Nat.digitChar (n % 10)]
  | fuel + 1, n =>
    if n < 10 then [Nat.digitChar n]
    else natDigitsAux fuel (n / 10) ++ [Nat.digitChar (n % 10)]

/-- Decimal digits of a natural number. -/
def natDigits (n : Nat) : List Char :=
  natDigitsAux n n

/-- Decimal string of a natural number, as Python would interpolate an
int into an f-string. -/
def natStr (n : Nat) : String :=
  String.mk (natDigits n)

/-- Chunk identifier built in add_documents: the run timestamp, the
literal piece _doc_, the document index, the literal piece _chunk_,
and the chunk index, all interpolated in decimal. -/
def mkId (T d i : Nat) : String :=
  natStr T ++ "_doc_" ++ natStr d ++ "_chunk_" ++ natStr i

/-- Numeric value of a digit character. -/
def digitVal (c : Char) : Nat := c.toNat - 48

/-- Decimal value of a digit list, inverse of natDigits. -/
def valOf (l : List Char) : Nat :=
  l.foldl (fun a c => 10 * a + digitVal c) 0

/-- Metadata values: caller-supplied scalars or strings. -/
inductive MetaValue where
  | s (v : String)
  | i (v : Int)
  | b (v : Bool)
deriving DecidableEq

/-- A Python dict of metadata, modelled as an association list (keys
are unique in any dict the caller can actually pass). -/
abbrev Metadata : Type := List (String × MetaValue)

/-- Python dict lookup on the association-list model. -/
def dlookup (k : String) : Metadata → Option MetaValue
  | [] => none
  | kv :: rest => if kv.1 = k then some kv.2 else dlookup k rest

/-- One entry of the left operand of a dict union, with the right
operand's value substituted when the key collides. -/
def overrideEntry (m2 : Metadata) (kv : String × MetaValue) : String × MetaValue :=
  match dlookup kv.1 m2 with
  | some v => (kv.1, v)
  | none => kv

/-- Python dict union (the | operator): left operand's keys in order
with the right operand's values winning on collision, then the right
operand's remaining entries. -/
def dictUnion (m1 m2 : Metadata) : Metadata :=
  m1.map (overrideEntry m2) ++ m2.filter (fun kv => (dlookup kv.1 m1).isNone)

/-- The metadata stored with one chunk: the document's metadata united
with the two reserved entries, as in the source line
meta = metadata | dict of id and chunk_size. -/
def augmentMeta (md : Metadata) (idStr : String) (len : Nat) : Metadata :=
  dictUnion md [("id", MetaValue.s idStr), ("chunk_size", MetaValue.i (Int.ofNat len))]

/-- An embedding vector; the pipeline never inspects its contents. -/
abbrev Vec : Type := List Int

/-- An input document as consumed by add_documents: the results of
doc.get applied to the content and metadata keys, where none models a
missing key or Python None. -/
structure Document where
  content : Option String
  metadata : Option Metadata
deriving DecidableEq

/-- Python truthiness of an optional string: None and the empty string
are falsy. -/
def pyTruthy : Option String → Bool
  | none => false
  | some t => t != ""

/-- The four parallel sequences handed to one collection.add call. -/
structure AddBatch where
  ids : List String
  embeddings : List Vec
  documents : List String
  metadatas : List Metadata
deriving DecidableEq

/-- The store's reply to collection.query: a mapping that may omit any
field; each present field is a batch (one inner list per query). -/
structure QueryResponse where
  ids : Option (List (List String))
  documents : Option (List (List String))
  metadatas : Option (List (List Metadata))
  distances : Option (List (List Rat))
deriving DecidableEq

/-- The flat, single-level result mapping returned by search, with its
exactly four keys as structure fields. -/
structure SearchResult where
  ids : List String
  documents : List String
  metadatas : List Metadata
  distances : List Rat
deriving DecidableEq

/-- One collaborator call issued by the pipeline, in issue order. -/
inductive Event where
  | encodeCall (texts : List String)
  | queryCall (v : Vec) (n : Int)
  | storeAddCall (b : AddBatch)
deriving DecidableEq

/-- Failure outcomes: attrError models the AttributeError raised when
a non-mapping metadata value is used as a dict, indexError models
indexing an empty sequence at 0, and collab wraps an error raised by a
collaborator call. -/
inductive Failure (ε : Type) where
  | attrError
  | indexError
  | collab (e : ε)
deriving DecidableEq

/-- The VectorDB object: its collaborators. encode is the sentence
transformer, storeAdd and storeQuery are the chroma collection, and
split_text is the langchain splitter constructed from a chunk size and
an overlap. -/
structure VectorDB (ε : Type) where
  encode : List String → Except ε (List Vec)
  storeAdd : AddBatch → Except ε Unit
  storeQuery : Vec → Int → Except ε QueryResponse
  split_text : Nat → Nat → String → List String

/-- chunk_text: returns no chunks for falsy text, otherwise delegates
to the splitter built with the given chunk size and an overlap of ten
percent of it (Python int of chunk_size times 0.10). -/
def VectorDB.chunk_text {ε : Type} (db : VectorDB ε) (text : Option String) (chunk_size : Nat) : List String :=
  match text with
  | none => []
  | some t => if t = "" then [] else db.split_text chunk_size (chunk_size / 10) t

/-- The ids built by the per-chunk loop of add_documents for one
document: one id per chunk, indexed from the given counter. -/
def docIds (T d : Nat) : Nat → List String → List String
  | _, [] => []
  | i, _ :: rest => mkId T d i :: docIds T d (i + 1) rest

/-- The metadatas built by the per-chunk loop of add_documents for one
document: the document metadata united with the reserved id and
chunk_size entries of each chunk. -/
def docMetadatas (T d : Nat) (md : Metadata) : Nat → List String → List Metadata
  | _, [] => []
  | i, c :: rest => augmentMeta md (mkId T d i) c.length :: docMetadatas T d md (i + 1) rest

/-- The four parallel sequences assembled for one document: the ids
and augmented metadatas from the per-chunk loop, the embeddings as
returned by the embedder, and the chunk texts themselves. -/
def docBatch {ε : Type} (db : VectorDB ε) (T d : Nat) (md : Metadata)
    (embeddings : List Vec) (doc : Document) : AddBatch :=
  ⟨docIds T d 0 (db.chunk_text doc.content 500), embeddings,
   db.chunk_text doc.content 500,
   docMetadatas T d md 0 (db.chunk_text doc.content 500)⟩

/-- The body of the add_documents loop for one document at position d:
skip falsy content; otherwise chunk, call the embedder, use the
metadata as a dict (AttributeError when it is None), then issue the
single collection.add call for the document. Returns the issued
collaborator calls, the batch durably written (if any), and the error
outcome. -/
def processDoc {ε : Type} (db : VectorDB ε) (T d : Nat) (doc : Document) :
    List Event × Option AddBatch × Option (Failure ε) :=
  if pyTruthy doc.content then
    match db.encode (db.chunk_text doc.content 500) with
    | Except.error e =>
      ([Event.encodeCall (db.chunk_text doc.content 500)], none, some (Failure.collab e))
    | Except.ok embeddings =>
      match doc.metadata with
      | none =>
        ([Event.encodeCall (db.chunk_text doc.content 500)], none, some Failure.attrError)
      | some md =>
        match db.storeAdd (docBatch db T d md embeddings doc) with
        | Except.error e =>
          ([Event.encodeCall (db.chunk_text doc.content 500),
            Event.storeAddCall (docBatch db T d md embeddings doc)], none,
           some (Failure.collab e))
        | Except.ok _ =>
          ([Event.encodeCall (db.chunk_text doc.content 500),
            Event.storeAddCall (docBatch db T d md embeddings doc)],
           some (docBatch db T d md embeddings doc), none)
  else ([], none, none)

/-- The enumerate loop of add_documents: documents processed strictly
in input order, stopping at the first error. -/
def addDocumentsAux {ε : Type} (db : VectorDB ε) (T : Nat) :
    Nat → List Document → List Event × List AddBatch × Option (Failure ε)
  | _, [] => ([], [], none)
  | d, doc :: rest =>
    let pd := processDoc db T d doc
    match pd.2.2 with
    | some e => (pd.1, pd.2.1.toList, some e)
    | none =>
      let r := addDocumentsAux db T (d + 1) rest
      (pd.1 ++ r.1, pd.2.1.toList ++ r.2.1, r.2.2)

/-- add_documents: one run timestamp T captured once for the whole
call, then the enumerate loop from index 0. -/
def VectorDB.add_documents {ε : Type} (db : VectorDB ε) (T : Nat) (documents : List Document) :
    List Event × List AddBatch × Option (Failure ε) :=
  addDocumentsAux db T 0 documents

/-- The ids contributed by one event of an ingestion trace. -/
def batchIdsOf : Event → List String
  | Event.storeAddCall b => b.ids
  | _ => []

/-- All chunk ids generated during an ingestion call, in issue order. -/
def generatedIds (trace : List Event) : List String :=
  trace.flatMap batchIdsOf

/-- Specification-level formula for the ids of a whole run: for each
document position, one id per chunk of that document. -/
def runIds {ε : Type} (db : VectorDB ε) (T : Nat) : Nat → List Document → List String
  | _, [] => []
  | d, doc :: rest =>
    docIds T d 0 (db.chunk_text doc.content 500) ++ runIds db T (d + 1) rest

/-- Chunk counts of each document of a batch. -/
def chunkCounts {ε : Type} (db : VectorDB ε) (docs : List Document) : List Nat :=
  docs.map fun doc => (db.chunk_text doc.content 500).length

/-- Python results.get(key, nested empty default) followed by indexing
at 0: an absent field yields the empty list, a present field yields
its first batch element, and indexing an empty present field is an
IndexError (modelled as none). -/
def getFlat {α : Type} (f : Option (List (List α))) : Option (List α) :=
  (f.getD [[]]).head?

/-- search: embed the query as a single-item batch, take its first
vector, query the store, and normalize the response into the flat
four-field result. -/
def VectorDB.search {ε : Type} (db : VectorDB ε) (query : String) (n_results : Int) :
    List Event × Except (Failure ε) SearchResult :=
  match db.encode [query] with
  | Except.error e => ([Event.encodeCall [query]], Except.error (Failure.collab e))
  | Except.ok vs =>
    match vs with
    | [] => ([Event.encodeCall [query]], Except.error Failure.indexError)
    | v :: _ =>
      match db.storeQuery v n_results with
      | Except.error e =>
        ([Event.encodeCall [query], Event.queryCall v n_results], Except.error (Failure.collab e))
      | Except.ok results =>
        ([Event.encodeCall [query], Event.queryCall v n_results],
         match getFlat results.ids, getFlat results.documents,
               getFlat results.metadatas, getFlat results.distances with
         | some a, some b, some c, some d => Except.ok ⟨a, b, c, d⟩
         | _, _, _, _ => Except.error Failure.indexError)

/-- Modelled from the spec: the external chunking engine (langchain's
recursive character splitter, which is not part of this repository's
sources) on text containing no natural break boundary, where the spec
says it falls back to a hard character split that never exceeds the
target size and repeats the overlap from the end of the previous
chunk; successive chunk starts therefore advance by the target size
minus the overlap. -/
def hardSplit (chunkSize step : Nat) (cs : List Char) : List (List Char) :=
  if h : cs.length ≤ chunkSize ∨ step = 0 then [cs]
  else cs.take chunkSize :: hardSplit chunkSize step (cs.drop step)
termination_by cs.length
decreasing_by
  simp only [List.length_drop]
  omega

/-- Modelled from the spec: the splitter collaborator built from a
chunk size and an overlap, specialized to boundary-free text (see
hardSplit). -/
def specSplitText (chunkSize overlap : Nat) (t : String) : List String :=
  (hardSplit chunkSize (chunkSize - overlap) t.data).map String.mk

/-- A benign concrete collaborator set: every embedding succeeds with
one (empty) vector per text, every store call succeeds, every query
returns an empty batch-of-one for each field, and the splitter keeps
the text whole. Used to instantiate theorems at concrete inputs. -/
def dbOk : VectorDB Unit :=
  ⟨fun ts => Except.ok (ts.map fun _ => ([] : Vec)),
   fun _ => Except.ok (),
   fun _ _ => Except.ok ⟨some [[]], some [[]], some [[]], some [[]]⟩,
   fun _ _ t => [t]⟩

/-- Concrete collaborators whose store returns a batch-of-one with two
matches per field, distances ascending. -/
def dbTwo : VectorDB Unit :=
  ⟨fun ts => Except.ok (ts.map fun _ => ([] : Vec)),
   fun _ => Except.ok (),
   fun _ _ => Except.ok ⟨some [["i1", "i2"]], some [["t1", "t2"]],
                         some [[[], []]], some [[0, 1]]⟩,
   fun _ _ t => [t]⟩

/-- Concrete collaborators whose store omits the ids and metadatas
fields entirely and returns a batch-of-one for the other two. -/
def dbMixed : VectorDB Unit :=
  ⟨fun ts => Except.ok (ts.map fun _ => ([] : Vec)),
   fun _ => Except.ok (),
   fun _ _ => Except.ok ⟨none, some [["t1"]], none, some [[0]]⟩,
   fun _ _ t => [t]⟩

/-- Concrete collaborators using the spec-modelled splitter. -/
def dbSpec : VectorDB Unit :=
  ⟨fun ts => Except.ok (ts.map fun _ => ([] : Vec)),
   fun _ => Except.ok (),
   fun _ _ => Except.ok ⟨some [[]], some [[]], some [[]], some [[]]⟩,
   specSplitText⟩

lemma digitChar_ne_underscore : ∀ k : Nat, k < 10 → Nat.digitChar k ≠ '_' := by
  decide

lemma digitVal_digitChar : ∀ k : Nat, k < 10 → digitVal (Nat.digitChar k) = k := by
  decide

lemma natDigitsAux_ne_underscore : ∀ fuel n : Nat, '_' ∉ natDigitsAux fuel n := by
  intro fuel
  induction fuel with
  | zero =>
    intro n
    simp only [natDigitsAux, List.mem_singleton]
    exact fun h => digitChar_ne_underscore (n % 10) (Nat.mod_lt n (by omega)) h.symm
  | succ fuel ih =>
    intro n
    simp only [natDigitsAux]
    split
    · simp only [List.mem_singleton]
      intro h
      exact digitChar_ne_underscore n (by omega) h.symm
    · simp only [List.mem_append, List.mem_singleton]
      rintro (h | h)
      · exact ih (n / 10) h
      · exact digitChar_ne_underscore (n % 10) (Nat.mod_lt n (by omega)) h.symm

lemma natDigits_ne_underscore (n : Nat) : '_' ∉ natDigits n :=
  natDigitsAux_ne_underscore n n

lemma valOf_singleton (c : Char) : valOf [c] = digitVal c := by
  simp [valOf]

lemma valOf_append_digit (l : List Char) (c : Char) :
    valOf (l ++ [c]) = 10 * valOf l + digitVal c := by
  simp [valOf, List.foldl_append]

lemma valOf_natDigitsAux : ∀ fuel n : Nat, n ≤ fuel → valOf (natDigitsAux fuel n) = n := by
  intro fuel
  induction fuel with
  | zero =>
    intro n hn
    have h0 : n = 0 := by omega
    subst h0
    simp only [natDigitsAux, valOf_singleton]
    rw [digitVal_digitChar 0 (by omega)]
  | succ fuel ih =>
    intro n hn
    simp only [natDigitsAux]
    split
    · rw [valOf_singleton, digitVal_digitChar n (by omega)]
    · rename_i hge
      have hlt : n / 10 < n := Nat.div_lt_self (by omega) (by omega)
      rw [valOf_append_digit, ih (n / 10) (by omega),
        digitVal_digitChar (n % 10) (Nat.mod_lt n (by omega))]
      omega

lemma valOf_natDigits (n : Nat) : valOf (natDigits n) = n :=
  valOf_natDigitsAux n n (Nat.le_refl n)

lemma natDigits_inj {a b : Nat} (h : natDigits a = natDigits b) : a = b := by
  have := valOf_natDigits a
  rw [h, valOf_natDigits b] at this
  omega

lemma sep_append_inj : ∀ xs xs' : List Char, ∀ rest rest' : List Char,
    '_' ∉ xs → '_' ∉ xs' →
    xs ++ '_' :: rest = xs' ++ '_' :: rest' → xs = xs' ∧ rest = rest' := by
  intro xs
  induction xs with
  | nil =>
    intro xs' rest rest' _ h2 h
    cases xs' with
    | nil => simpa using h
    | cons a as =>
      simp only [List.nil_append, List.cons_append, List.cons.injEq] at h
      exact absurd (List.mem_cons_self a as) (h.1 ▸ h2)
  | cons a as ih =>
    intro xs' rest rest' h1 h2 h
    cases xs' with
    | nil =>
      simp only [List.cons_append, List.nil_append, List.cons.injEq] at h
      exact absurd (List.mem_cons_self a as) (h.1.symm ▸ h1)
    | cons a' as' =>
      simp only [List.cons_append, List.cons.injEq] at h
      obtain ⟨rfl, h⟩ := h
      have hr := ih as' rest rest' (fun hm => h1 (List.mem_cons_of_mem a hm))
        (fun hm => h2 (List.mem_cons_of_mem a hm)) h
      exact ⟨by rw [hr.1], hr.2⟩

lemma mkId_data (T d i : Nat) :
    (mkId T d i).data =
      natDigits T ++ '_' :: 'd' :: 'o' :: 'c' :: '_' ::
        (natDigits d ++ '_' :: 'c' :: 'h' :: 'u' :: 'n' :: 'k' :: '_' :: natDigits i) := by
  show (natStr T ++ "_doc_" ++ natStr d ++ "_chunk_" ++ natStr i).data = _
  simp only [String.data_append]
  show natDigits T ++ ['_', 'd', 'o', 'c', '_'] ++ natDigits d ++
      ['_', 'c', 'h', 'u', 'n', 'k', '_'] ++ natDigits i = _
  simp [List.append_assoc]

lemma mkId_inj {T d i d' i' : Nat} (h : mkId T d i = mkId T d' i') :
    d = d' ∧ i = i' := by
  have hd : (mkId T d i).data = (mkId T d' i').data := by rw [h]
  rw [mkId_data, mkId_data] at hd
  have hd2 := List.append_cancel_left hd
  simp only [List.cons.injEq, true_and] at hd2
  have hsep := sep_append_inj (natDigits d) (natDigits d') _ _
    (natDigits_ne_underscore d) (natDigits_ne_underscore d') hd2
  obtain ⟨hdd, htail⟩ := hsep
  simp only [List.cons.injEq, true_and] at htail
  exact ⟨natDigits_inj hdd, natDigits_inj htail⟩

lemma overrideEntry_fst (m2 : Metadata) (kv : String × MetaValue) :
    (overrideEntry m2 kv).1 = kv.1 := by
  unfold overrideEntry
  split <;> rfl

lemma dlookup_append (k : String) (l1 l2 : Metadata) :
    dlookup k (l1 ++ l2) =
      match dlookup k l1 with
      | some v => some v
      | none => dlookup k l2 := by
  induction l1 with
  | nil => simp [dlookup]
  | cons kv rest ih =>
    simp only [List.cons_append, dlookup]
    split
    · rfl
    · exact ih

lemma dlookup_map_override (k : String) (m1 m2 : Metadata) :
    dlookup k (m1.map (overrideEntry m2)) =
      match dlookup k m1 with
      | none => none
      | some v =>
        some (match dlookup k m2 with
              | some w => w
              | none => v) := by
  induction m1 with
  | nil => simp [dlookup]
  | cons kv rest ih =>
    simp only [List.map_cons, dlookup, overrideEntry_fst]
    by_cases hk : kv.1 = k
    · subst hk
      simp only [if_pos rfl]
      unfold overrideEntry
      cases h2 : dlookup kv.1 m2 <;> simp [h2]
    · simp only [if_neg hk]
      exact ih

lemma dlookup_filter_of_none (k : String) (m1 m2 : Metadata)
    (h : dlookup k m1 = none) :
    dlookup k (m2.filter fun kv => (dlookup kv.1 m1).isNone) = dlookup k m2 := by
  induction m2 with
  | nil => simp
  | cons kv rest ih =>
    by_cases hk : kv.1 = k
    · have hkeep : ((dlookup kv.1 m1).isNone : Bool) = true := by
        rw [hk, h]; rfl
      simp only [List.filter_cons, hkeep, if_true]
      simp only [dlookup, if_pos hk]
    · cases hkeep : ((dlookup kv.1 m1).isNone : Bool) with
      | true =>
        simp only [List.filter_cons, hkeep, if_true]
        simp only [dlookup, if_neg hk]
        exact ih
      | false =>
        simp only [List.filter_cons, hkeep, Bool.false_eq_true, if_false]
        rw [ih]
        simp only [dlookup, if_neg hk]

lemma dlookup_filter_of_some (k : String) (m1 m2 : Metadata) (v : MetaValue)
    (h : dlookup k m1 = some v) :
    dlookup k (m2.filter fun kv => (dlookup kv.1 m1).isNone) = none := by
  induction m2 with
  | nil => simp [dlookup]
  | cons kv rest ih =>
    by_cases hk : kv.1 = k
    · have hdrop : ((dlookup kv.1 m1).isNone : Bool) = false := by
        rw [hk, h]; rfl
      simp only [List.filter_cons, hdrop, Bool.false_eq_true, if_false]
      exact ih
    · cases hkeep : ((dlookup kv.1 m1).isNone : Bool) with
      | true =>
        simp only [List.filter_cons, hkeep, if_true]
        simp only [dlookup, if_neg hk]
        exact ih
      | false =>
        simp only [List.filter_cons, hkeep, Bool.false_eq_true, if_false]
        exact ih

lemma dlookup_dictUnion (k : String) (m1 m2 : Metadata) :
    dlookup k (dictUnion m1 m2) =
      match dlookup k m2 with
      | some v => some v
      | none => dlookup k m1 := by
  unfold dictUnion
  rw [dlookup_append, dlookup_map_override]
  cases h1 : dlookup k m1 with
  | none =>
    rw [dlookup_filter_of_none k m1 m2 h1]
    cases h2 : dlookup k m2 <;> rfl
  | some v =>
    cases h2 : dlookup k m2 <;> simp [dlookup_filter_of_some k m1 m2 v h1]

lemma dlookup_reserved_id (idStr : String) (len : Nat) :
    dlookup "id" [("id", MetaValue.s idStr), ("chunk_size", MetaValue.i (Int.ofNat len))] =
      some (MetaValue.s idStr) := by
  simp [dlookup]

lemma dlookup_reserved_chunk_size (idStr : String) (len : Nat) :
    dlookup "chunk_size" [("id", MetaValue.s idStr), ("chunk_size", MetaValue.i (Int.ofNat len))] =
      some (MetaValue.i (Int.ofNat len)) := by
  simp [dlookup]

lemma dlookup_reserved_other (k idStr : String) (len : Nat)
    (h1 : k ≠ "id") (h2 : k ≠ "chunk_size") :
    dlookup k [("id", MetaValue.s idStr), ("chunk_size", MetaValue.i (Int.ofNat len))] =
      none := by
  simp only [dlookup]
  rw [if_neg (fun h => h1 h.symm), if_neg (fun h => h2 h.symm)]

lemma augmentMeta_id (md : Metadata) (idStr : String) (len : Nat) :
    dlookup "id" (augmentMeta md idStr len) = some (MetaValue.s idStr) := by
  unfold augmentMeta
  rw [dlookup_dictUnion, dlookup_reserved_id]

lemma augmentMeta_chunk_size (md : Metadata) (idStr : String) (len : Nat) :
    dlookup "chunk_size" (augmentMeta md idStr len) = some (MetaValue.i (Int.ofNat len)) := by
  unfold augmentMeta
  rw [dlookup_dictUnion, dlookup_reserved_chunk_size]

lemma augmentMeta_other (md : Metadata) (idStr : String) (len : Nat) (k : String)
    (h1 : k ≠ "id") (h2 : k ≠ "chunk_size") :
    dlookup k (augmentMeta md idStr len) = dlookup k md := by
  unfold augmentMeta
  rw [dlookup_dictUnion, dlookup_reserved_other k idStr len h1 h2]

lemma docIds_length (T d : Nat) : ∀ i0 cs, (docIds T d i0 cs).length = cs.length := by
  intro i0 cs
  induction cs generalizing i0 with
  | nil => rfl
  | cons c rest ih => simp [docIds, ih]

lemma docIds_getElem (T d : Nat) :
    ∀ cs : List String, ∀ i0 j : Nat, j < cs.length →
      (docIds T d i0 cs)[j]? = some (mkId T d (i0 + j)) := by
  intro cs
  induction cs with
  | nil => intro i0 j hj; simp at hj
  | cons c rest ih =>
    intro i0 j hj
    cases j with
    | zero => simp [docIds]
    | succ j =>
      simp only [List.length_cons] at hj
      simp only [docIds, List.getElem?_cons_succ]
      rw [ih (i0 + 1) j (by omega)]
      have harith : i0 + 1 + j = i0 + (j + 1) := by omega
      rw [harith]

lemma docIds_mem (T d : Nat) :
    ∀ cs : List String, ∀ i0 : Nat, ∀ x ∈ docIds T d i0 cs,
      ∃ j, i0 ≤ j ∧ x = mkId T d j := by
  intro cs
  induction cs with
  | nil => intro i0 x hx; simp [docIds] at hx
  | cons c rest ih =>
    intro i0 x hx
    simp only [docIds, List.mem_cons] at hx
    rcases hx with rfl | hx
    · exact ⟨i0, Nat.le_refl i0, rfl⟩
    · obtain ⟨j, hj, hx⟩ := ih (i0 + 1) x hx
      exact ⟨j, by omega, hx⟩

lemma docIds_nodup (T d : Nat) : ∀ cs : List String, ∀ i0 : Nat,
    (docIds T d i0 cs).Nodup := by
  intro cs
  induction cs with
  | nil => intro i0; simp [docIds]
  | cons c rest ih =>
    intro i0
    simp only [docIds, List.nodup_cons]
    refine ⟨fun hmem => ?_, ih (i0 + 1)⟩
    obtain ⟨j, hj, hx⟩ := docIds_mem T d rest (i0 + 1) _ hmem
    have := (mkId_inj hx).2
    omega

lemma docMetadatas_getElem (T d : Nat) (md : Metadata) :
    ∀ cs : List String, ∀ i0 j : Nat, ∀ c : String, cs[j]? = some c →
      (docMetadatas T d md i0 cs)[j]? = some (augmentMeta md (mkId T d (i0 + j)) c.length) := by
  intro cs
  induction cs with
  | nil => intro i0 j c hc; simp at hc
  | cons c0 rest ih =>
    intro i0 j c hc
    cases j with
    | zero =>
      simp only [List.getElem?_cons_zero, Option.some.injEq] at hc
      subst hc
      simp [docMetadatas]
    | succ j =>
      simp only [List.getElem?_cons_succ] at hc
      simp only [docMetadatas, List.getElem?_cons_succ]
      rw [ih (i0 + 1) j c hc]
      have harith : i0 + 1 + j = i0 + (j + 1) := by omega
      rw [harith]

lemma docMetadatas_length (T d : Nat) (md : Metadata) :
    ∀ i0 cs, (docMetadatas T d md i0 cs).length = cs.length := by
  intro i0 cs
  induction cs generalizing i0 with
  | nil => rfl
  | cons c rest ih => simp [docMetadatas, ih]

lemma chunk_text_falsy {ε : Type} (db : VectorDB ε) (content : Option String)
    (h : pyTruthy content = false) (cs : Nat) :
    db.chunk_text content cs = [] := by
  cases content with
  | none => rfl
  | some t =>
    simp only [pyTruthy, bne_eq_false_iff_eq, beq_iff_eq] at h
    simp [VectorDB.chunk_text, h]

lemma processDoc_falsy {ε : Type} (db : VectorDB ε) (T d : Nat) (doc : Document)
    (h : pyTruthy doc.content = false) :
    processDoc db T d doc = ([], none, none) := by
  simp [processDoc, h]

lemma processDoc_encode_error {ε : Type} (db : VectorDB ε) (T d : Nat) (doc : Document)
    (e : ε) (ht : pyTruthy doc.content = true)
    (he : db.encode (db.chunk_text doc.content 500) = Except.error e) :
    processDoc db T d doc =
      ([Event.encodeCall (db.chunk_text doc.content 500)], none, some (Failure.collab e)) := by
  unfold processDoc
  rw [if_pos ht]
  simp only [he]

lemma processDoc_md_none {ε : Type} (db : VectorDB ε) (T d : Nat) (doc : Document)
    (embeddings : List Vec) (ht : pyTruthy doc.content = true)
    (he : db.encode (db.chunk_text doc.content 500) = Except.ok embeddings)
    (hmd : doc.metadata = none) :
    processDoc db T d doc =
      ([Event.encodeCall (db.chunk_text doc.content 500)], none, some Failure.attrError) := by
  unfold processDoc
  rw [if_pos ht]
  simp only [he, hmd]

lemma processDoc_store_error {ε : Type} (db : VectorDB ε) (T d : Nat) (doc : Document)
    (embeddings : List Vec) (md : Metadata) (e : ε) (ht : pyTruthy doc.content = true)
    (he : db.encode (db.chunk_text doc.content 500) = Except.ok embeddings)
    (hmd : doc.metadata = some md)
    (hs : db.storeAdd (docBatch db T d md embeddings doc) = Except.error e) :
    processDoc db T d doc =
      ([Event.encodeCall (db.chunk_text doc.content 500),
        Event.storeAddCall (docBatch db T d md embeddings doc)], none,
       some (Failure.collab e)) := by
  unfold processDoc
  rw [if_pos ht]
  simp only [he, hmd, hs]

lemma processDoc_store_ok {ε : Type} (db : VectorDB ε) (T d : Nat) (doc : Document)
    (embeddings : List Vec) (md : Metadata) (ht : pyTruthy doc.content = true)
    (he : db.encode (db.chunk_text doc.content 500) = Except.ok embeddings)
    (hmd : doc.metadata = some md)
    (hs : db.storeAdd (docBatch db T d md embeddings doc) = Except.ok ()) :
    processDoc db T d doc =
      ([Event.encodeCall (db.chunk_text doc.content 500),
        Event.storeAddCall (docBatch db T d md embeddings doc)],
       some (docBatch db T d md embeddings doc), none) := by
  unfold processDoc
  rw [if_pos ht]
  simp only [he, hmd, hs]

lemma processDoc_fail_batch {ε : Type} (db : VectorDB ε) (T d : Nat) (doc : Document)
    (f : Failure ε) (h : (processDoc db T d doc).2.2 = some f) :
    (processDoc db T d doc).2.1 = none := by
  by_cases ht : pyTruthy doc.content = true
  · cases he : db.encode (db.chunk_text doc.content 500) with
    | error e => rw [processDoc_encode_error db T d doc e ht he]
    | ok embeddings =>
      cases hmd : doc.metadata with
      | none => rw [processDoc_md_none db T d doc embeddings ht he hmd]
      | some md =>
        cases hs : db.storeAdd (docBatch db T d md embeddings doc) with
        | error e => rw [processDoc_store_error db T d doc embeddings md e ht he hmd hs]
        | ok u =>
          rw [processDoc_store_ok db T d doc embeddings md ht he hmd hs] at h
          simp at h
  · rw [processDoc_falsy db T d doc (by simpa using ht)] at h
    simp at h

lemma addDocumentsAux_nil {ε : Type} (db : VectorDB ε) (T d : Nat) :
    addDocumentsAux db T d [] = ([], [], none) := rfl

lemma addDocumentsAux_cons_err {ε : Type} (db : VectorDB ε) (T d : Nat)
    (doc : Document) (rest : List Document) (f : Failure ε)
    (h : (processDoc db T d doc).2.2 = some f) :
    addDocumentsAux db T d (doc :: rest) =
      ((processDoc db T d doc).1, (processDoc db T d doc).2.1.toList, some f) := by
  simp only [addDocumentsAux, h]

lemma addDocumentsAux_cons_ok {ε : Type} (db : VectorDB ε) (T d : Nat)
    (doc : Document) (rest : List Document)
    (h : (processDoc db T d doc).2.2 = none) :
    addDocumentsAux db T d (doc :: rest) =
      ((processDoc db T d doc).1 ++ (addDocumentsAux db T (d + 1) rest).1,
       (processDoc db T d doc).2.1.toList ++ (addDocumentsAux db T (d + 1) rest).2.1,
       (addDocumentsAux db T (d + 1) rest).2.2) := by
  simp only [addDocumentsAux, h]

lemma generatedIds_append (a b : List Event) :
    generatedIds (a ++ b) = generatedIds a ++ generatedIds b := by
  simp [generatedIds]

lemma addDocumentsAux_append {ε : Type} (db : VectorDB ε) (T : Nat) :
    ∀ l1 l2 : List Document, ∀ d : Nat,
      addDocumentsAux db T d (l1 ++ l2) =
        match (addDocumentsAux db T d l1).2.2 with
        | some _ => addDocumentsAux db T d l1
        | none =>
          ((addDocumentsAux db T d l1).1 ++ (addDocumentsAux db T (d + l1.length) l2).1,
           (addDocumentsAux db T d l1).2.1 ++ (addDocumentsAux db T (d + l1.length) l2).2.1,
           (addDocumentsAux db T (d + l1.length) l2).2.2) := by
  intro l1
  induction l1 with
  | nil =>
    intro l2 d
    simp [addDocumentsAux_nil]
  | cons doc rest ih =>
    intro l2 d
    cases hp : (processDoc db T d doc).2.2 with
    | some e =>
      rw [List.cons_append, addDocumentsAux_cons_err db T d doc (rest ++ l2) e hp,
          addDocumentsAux_cons_err db T d doc rest e hp]
    | none =>
      rw [List.cons_append, addDocumentsAux_cons_ok db T d doc (rest ++ l2) hp,
          addDocumentsAux_cons_ok db T d doc rest hp, ih l2 (d + 1)]
      cases hr : (addDocumentsAux db T (d + 1) rest).2.2 with
      | some e => simp [hr]
      | none =>
        have harith : d + 1 + rest.length = d + (doc :: rest).length := by
          simp only [List.length_cons]
          omega
        rw [harith]
        simp [hr, List.append_assoc]

lemma processDoc_ok_ids {ε : Type} (db : VectorDB ε) (T d : Nat) (doc : Document)
    (hp : (processDoc db T d doc).2.2 = none) :
    generatedIds (processDoc db T d doc).1 =
      docIds T d 0 (db.chunk_text doc.content 500) := by
  by_cases ht : pyTruthy doc.content = true
  · cases he : db.encode (db.chunk_text doc.content 500) with
    | error e =>
      rw [processDoc_encode_error db T d doc e ht he] at hp
      simp at hp
    | ok embeddings =>
      cases hmd : doc.metadata with
      | none =>
        rw [processDoc_md_none db T d doc embeddings ht he hmd] at hp
        simp at hp
      | some md =>
        cases hs : db.storeAdd (docBatch db T d md embeddings doc) with
        | error e =>
          rw [processDoc_store_error db T d doc embeddings md e ht he hmd hs] at hp
          simp at hp
        | ok u =>
          rw [processDoc_store_ok db T d doc embeddings md ht he hmd hs]
          simp [generatedIds, batchIdsOf, docBatch]
  · rw [processDoc_falsy db T d doc (by simpa using ht)]
    rw [chunk_text_falsy db doc.content (by simpa using ht) 500]
    rfl

lemma addDocumentsAux_ok_ids {ε : Type} (db : VectorDB ε) (T : Nat) :
    ∀ docs : List Document, ∀ d : Nat,
      (addDocumentsAux db T d docs).2.2 = none →
      generatedIds (addDocumentsAux db T d docs).1 = runIds db T d docs := by
  intro docs
  induction docs with
  | nil => intro d _; rfl
  | cons doc rest ih =>
    intro d h
    cases hp : (processDoc db T d doc).2.2 with
    | some e =>
      rw [addDocumentsAux_cons_err db T d doc rest e hp] at h
      simp at h
    | none =>
      rw [addDocumentsAux_cons_ok db T d doc rest hp] at h ⊢
      simp only at h
      rw [generatedIds_append, processDoc_ok_ids db T d doc hp, ih (d + 1) h]
      rfl

lemma runIds_length {ε : Type} (db : VectorDB ε) (T : Nat) :
    ∀ docs : List Document, ∀ d : Nat,
      (runIds db T d docs).length = (chunkCounts db docs).sum := by
  intro docs
  induction docs with
  | nil => intro d; rfl
  | cons doc rest ih =>
    intro d
    simp only [runIds, chunkCounts, List.length_append, List.map_cons, List.sum_cons]
    rw [docIds_length, ih (d + 1)]
    rfl

lemma runIds_mem {ε : Type} (db : VectorDB ε) (T : Nat) :
    ∀ docs : List Document, ∀ d : Nat, ∀ x ∈ runIds db T d docs,
      ∃ k j, d ≤ k ∧ x = mkId T k j := by
  intro docs
  induction docs with
  | nil => intro d x hx; simp [runIds] at hx
  | cons doc rest ih =>
    intro d x hx
    simp only [runIds, List.mem_append] at hx
    rcases hx with hx | hx
    · obtain ⟨j, _, hx⟩ := docIds_mem T d _ 0 x hx
      exact ⟨d, j, Nat.le_refl d, hx⟩
    · obtain ⟨k, j, hk, hx⟩ := ih (d + 1) x hx
      exact ⟨k, j, by omega, hx⟩

lemma runIds_nodup {ε : Type} (db : VectorDB ε) (T : Nat) :
    ∀ docs : List Document, ∀ d : Nat, (runIds db T d docs).Nodup := by
  intro docs
  induction docs with
  | nil => intro d; simp [runIds]
  | cons doc rest ih =>
    intro d
    simp only [runIds]
    refine List.Nodup.append (docIds_nodup T d _ 0) (ih (d + 1)) ?_
    intro x hx1 hx2
    obtain ⟨j, _, rfl⟩ := docIds_mem T d _ 0 x hx1
    obtain ⟨k, j2, hk, hx⟩ := runIds_mem db T rest (d + 1) _ hx2
    have := (mkId_inj hx).1
    omega

/-- Claim C1: one run timestamp T is captured once for a whole
add_documents call and shared by every id; on a call that completes
without error, the generated ids are exactly the mkId T d i for each
document position d and chunk position i (the runIds formula), they
are pairwise distinct, and their set has exactly the sum of the
per-document chunk counts as its cardinality. -/
theorem claim_C1_id_uniqueness {ε : Type} (db : VectorDB ε) (T : Nat)
    (docs : List Document)
    (hok : (db.add_documents T docs).2.2 = none) :
    generatedIds (db.add_documents T docs).1 = runIds db T 0 docs ∧
    (generatedIds (db.add_documents T docs).1).Nodup ∧
    (generatedIds (db.add_documents T docs).1).toFinset.card =
      (chunkCounts db docs).sum := by
  have h1 := addDocumentsAux_ok_ids db T docs 0 hok
  refine ⟨h1, ?_, ?_⟩
  · rw [show generatedIds (db.add_documents T docs).1 = runIds db T 0 docs from h1]
    exact runIds_nodup db T docs 0
  · rw [show generatedIds (db.add_documents T docs).1 = runIds db T 0 docs from h1,
      List.toFinset_card_of_nodup (runIds_nodup db T docs 0), runIds_length]

/-- Witness for C1 at a concrete two-document batch (one real document
and one skipped document) with benign collaborators and timestamp 7. -/
theorem claim_C1_witness :
    (dbOk.add_documents 7 [⟨some "hi", some []⟩, ⟨none, none⟩]).2.2 = none ∧
    (generatedIds (dbOk.add_documents 7 [⟨some "hi", some []⟩, ⟨none, none⟩]).1 =
        runIds dbOk 7 0 [⟨some "hi", some []⟩, ⟨none, none⟩] ∧
      (generatedIds (dbOk.add_documents 7 [⟨some "hi", some []⟩, ⟨none, none⟩]).1).Nodup ∧
      (generatedIds (dbOk.add_documents 7 [⟨some "hi", some []⟩, ⟨none, none⟩]).1).toFinset.card =
        (chunkCounts dbOk [⟨some "hi", some []⟩, ⟨none, none⟩]).sum) :=
  ⟨rfl, claim_C1_id_uniqueness dbOk 7 [⟨some "hi", some []⟩, ⟨none, none⟩] rfl⟩

/-- Claim C2: the metadata stored for chunk i of a document is the
caller metadata united with exactly the two reserved entries: the key
id maps to the chunk's own id and the key chunk_size maps to the
character length of the chunk's text, while every other key keeps the
caller's value (the caller's own id or chunk_size values are silently
replaced). -/
theorem claim_C2_metadata_augmentation (T d : Nat) (md : Metadata)
    (chunks : List String) (i : Nat) (c : String) (hc : chunks[i]? = some c) :
    (docMetadatas T d md 0 chunks)[i]? = some (augmentMeta md (mkId T d i) c.length) ∧
    dlookup "id" (augmentMeta md (mkId T d i) c.length) =
      some (MetaValue.s (mkId T d i)) ∧
    dlookup "chunk_size" (augmentMeta md (mkId T d i) c.length) =
      some (MetaValue.i (Int.ofNat c.length)) ∧
    ∀ k, k ≠ "id" → k ≠ "chunk_size" →
      dlookup k (augmentMeta md (mkId T d i) c.length) = dlookup k md := by
  refine ⟨?_, augmentMeta_id md _ _, augmentMeta_chunk_size md _ _,
    fun k h1 h2 => augmentMeta_other md _ _ k h1 h2⟩
  have h := docMetadatas_getElem T d md chunks 0 i c hc
  simpa using h

/-- Witness for C2 at a concrete chunk list and caller metadata. -/
theorem claim_C2_witness :
    ([("ab"), ("cd")] : List String)[1]? = some "cd" ∧
    ((docMetadatas 3 1 [("name", MetaValue.s "doc1")] 0 ["ab", "cd"])[1]? =
        some (augmentMeta [("name", MetaValue.s "doc1")] (mkId 3 1 1) "cd".length) ∧
      dlookup "id" (augmentMeta [("name", MetaValue.s "doc1")] (mkId 3 1 1) "cd".length) =
        some (MetaValue.s (mkId 3 1 1)) ∧
      dlookup "chunk_size" (augmentMeta [("name", MetaValue.s "doc1")] (mkId 3 1 1) "cd".length) =
        some (MetaValue.i (Int.ofNat "cd".length)) ∧
      ∀ k, k ≠ "id" → k ≠ "chunk_size" →
        dlookup k (augmentMeta [("name", MetaValue.s "doc1")] (mkId 3 1 1) "cd".length) =
          dlookup k [("name", MetaValue.s "doc1")]) :=
  ⟨rfl, claim_C2_metadata_augmentation 3 1 [("name", MetaValue.s "doc1")] ["ab", "cd"] 1 "cd" rfl⟩

/-- Claim C4: a document whose content is empty or absent contributes
nothing: chunk_text returns the empty sequence for it at any chunk
size (no error), and the add_documents loop step for it issues no
embedder call, no store write and no error, continuing with the next
document. -/
theorem claim_C4_empty_content_skip {ε : Type} (db : VectorDB ε) (T d : Nat)
    (doc : Document) (rest : List Document)
    (h : pyTruthy doc.content = false) :
    (∀ cs : Nat, db.chunk_text doc.content cs = []) ∧
    addDocumentsAux db T d (doc :: rest) = addDocumentsAux db T (d + 1) rest := by
  refine ⟨fun cs => chunk_text_falsy db doc.content h cs, ?_⟩
  rw [addDocumentsAux_cons_ok db T d doc rest (by rw [processDoc_falsy db T d doc h]),
    processDoc_falsy db T d doc h]
  simp

/-- Witness for C4 at a concrete empty-content document. -/
theorem claim_C4_witness :
    pyTruthy (Document.mk (some "") none).content = false ∧
    ((∀ cs : Nat, dbOk.chunk_text (Document.mk (some "") none).content cs = []) ∧
      addDocumentsAux dbOk 0 0 [Document.mk (some "") none, Document.mk (some "x") (some [])] =
        addDocumentsAux dbOk 0 1 [Document.mk (some "x") (some [])]) :=
  ⟨rfl, claim_C4_empty_content_skip dbOk 0 0 (Document.mk (some "") none)
    [Document.mk (some "x") (some [])] rfl⟩

/-- Claim C5: a document with truthy content whose metadata is a
mapping, whose chunks the embedder encodes into one vector per chunk,
and whose store write succeeds, causes exactly one embedder call
(covering all its chunks at once) followed by exactly one store write
whose four parallel sequences all have length equal to the chunk
count, with position i of the ids and metadatas referring to chunk i. -/
theorem claim_C5_per_document_batching {ε : Type} (db : VectorDB ε) (T d : Nat)
    (doc : Document) (rest : List Document) (md : Metadata) (embeddings : List Vec)
    (ht : pyTruthy doc.content = true)
    (hmd : doc.metadata = some md)
    (he : db.encode (db.chunk_text doc.content 500) = Except.ok embeddings)
    (hlen : embeddings.length = (db.chunk_text doc.content 500).length)
    (hs : db.storeAdd (docBatch db T d md embeddings doc) = Except.ok ()) :
    addDocumentsAux db T d (doc :: rest) =
      (Event.encodeCall (db.chunk_text doc.content 500)
         :: Event.storeAddCall (docBatch db T d md embeddings doc)
         :: (addDocumentsAux db T (d + 1) rest).1,
       docBatch db T d md embeddings doc :: (addDocumentsAux db T (d + 1) rest).2.1,
       (addDocumentsAux db T (d + 1) rest).2.2) ∧
    (docBatch db T d md embeddings doc).ids.length =
      (db.chunk_text doc.content 500).length ∧
    (docBatch db T d md embeddings doc).embeddings.length =
      (db.chunk_text doc.content 500).length ∧
    (docBatch db T d md embeddings doc).documents = db.chunk_text doc.content 500 ∧
    (docBatch db T d md embeddings doc).metadatas.length =
      (db.chunk_text doc.content 500).length ∧
    (∀ i, i < (db.chunk_text doc.content 500).length →
      (docBatch db T d md embeddings doc).ids[i]? = some (mkId T d i)) ∧
    (∀ i c, (db.chunk_text doc.content 500)[i]? = some c →
      (docBatch db T d md embeddings doc).metadatas[i]? =
        some (augmentMeta md (mkId T d i) c.length)) := by
  refine ⟨?_, ?_, ?_, rfl, ?_, ?_, ?_⟩
  · rw [addDocumentsAux_cons_ok db T d doc rest
      (by rw [processDoc_store_ok db T d doc embeddings md ht he hmd hs]),
      processDoc_store_ok db T d doc embeddings md ht he hmd hs]
    simp
  · show (docIds T d 0 (db.chunk_text doc.content 500)).length = _
    exact docIds_length T d 0 _
  · exact hlen
  · show (docMetadatas T d md 0 (db.chunk_text doc.content 500)).length = _
    exact docMetadatas_length T d md 0 _
  · intro i hi
    show (docIds T d 0 (db.chunk_text doc.content 500))[i]? = _
    simpa using docIds_getElem T d (db.chunk_text doc.content 500) 0 i hi
  · intro i c hc
    show (docMetadatas T d md 0 (db.chunk_text doc.content 500))[i]? = _
    simpa using docMetadatas_getElem T d md (db.chunk_text doc.content 500) 0 i c hc

/-- Witness for C5 at a concrete one-chunk document with benign
collaborators. -/
theorem claim_C5_witness :
    pyTruthy (Document.mk (some "hi") (some [])).content = true ∧
    dbOk.encode (dbOk.chunk_text (Document.mk (some "hi") (some [])).content 500) =
      Except.ok [([] : Vec)] ∧
    addDocumentsAux dbOk 9 0 [Document.mk (some "hi") (some [])] =
      (Event.encodeCall (dbOk.chunk_text (Document.mk (some "hi") (some [])).content 500)
         :: Event.storeAddCall (docBatch dbOk 9 0 [] [([] : Vec)] (Document.mk (some "hi") (some [])))
         :: (addDocumentsAux dbOk 9 1 []).1,
       docBatch dbOk 9 0 [] [([] : Vec)] (Document.mk (some "hi") (some []))
         :: (addDocumentsAux dbOk 9 1 []).2.1,
       (addDocumentsAux dbOk 9 1 []).2.2) :=
  ⟨rfl, rfl,
    (claim_C5_per_document_batching dbOk 9 0 (Document.mk (some "hi") (some [])) []
      [] [([] : Vec)] rfl rfl rfl rfl rfl).1⟩

/-- Claim C6: add_documents processes documents strictly in input
order, issuing each document's store write before touching the next
document; when the document at position k fails (for any reason), the
whole call fails with that failure, the store contains exactly the
batches written for the documents before k, and no batch for document
k or any later document. -/
theorem claim_C6_in_order_no_rollback {ε : Type} (db : VectorDB ε) (T : Nat)
    (pre post : List Document) (doc : Document) (f : Failure ε)
    (hpre : (addDocumentsAux db T 0 pre).2.2 = none)
    (hfail : (processDoc db T pre.length doc).2.2 = some f) :
    db.add_documents T (pre ++ doc :: post) =
      ((addDocumentsAux db T 0 pre).1 ++ (processDoc db T pre.length doc).1,
       (addDocumentsAux db T 0 pre).2.1,
       some f) := by
  show addDocumentsAux db T 0 (pre ++ doc :: post) = _
  rw [addDocumentsAux_append db T pre (doc :: post) 0, hpre]
  simp only [Nat.zero_add]
  rw [addDocumentsAux_cons_err db T pre.length doc post f hfail,
    processDoc_fail_batch db T pre.length doc f hfail]
  simp

/-- Witness for C6: a two-document batch whose second document fails
because its metadata is None; the first document's write survives. -/
theorem claim_C6_witness :
    (addDocumentsAux dbOk 4 0 [Document.mk (some "hi") (some [])]).2.2 = none ∧
    (processDoc dbOk 4 1 (Document.mk (some "A") none)).2.2 = some Failure.attrError ∧
    dbOk.add_documents 4
        ([Document.mk (some "hi") (some [])] ++ Document.mk (some "A") none :: []) =
      ((addDocumentsAux dbOk 4 0 [Document.mk (some "hi") (some [])]).1 ++
        (processDoc dbOk 4 1 (Document.mk (some "A") none)).1,
       (addDocumentsAux dbOk 4 0 [Document.mk (some "hi") (some [])]).2.1,
       some Failure.attrError) :=
  ⟨rfl, rfl,
    claim_C6_in_order_no_rollback dbOk 4 [Document.mk (some "hi") (some [])] []
      (Document.mk (some "A") none) Failure.attrError rfl rfl⟩

/-- Counterexample to claim C7 as stated: a single document with
truthy content and None metadata makes add_documents fail, but the
failure is not detected before any collaborator call: the trace shows
the embedder was invoked on the document's chunks before the failure
(the AttributeError arises only when the None metadata is first used
as a dict, after the encode call). -/
theorem claim_C7_counterexample :
    (dbOk.add_documents 0 [Document.mk (some "A") none]).2.2 = some Failure.attrError ∧
    Event.encodeCall ["A"] ∈ (dbOk.add_documents 0 [Document.mk (some "A") none]).1 := by
  have h : dbOk.add_documents 0 [Document.mk (some "A") none] =
      ([Event.encodeCall ["A"]], [], some Failure.attrError) := rfl
  rw [h]
  exact ⟨rfl, List.mem_singleton.mpr rfl⟩

/-- Claim C7 as amended: a document with truthy content whose metadata
is not a mapping makes ingestion fail with the attribute-error
condition; the failure occurs after the embedder has been invoked on
that document's chunks but before any store write for that document,
and the writes of all earlier documents remain. -/
theorem claim_C7_amended_metadata_failure {ε : Type} (db : VectorDB ε) (T : Nat)
    (pre post : List Document) (doc : Document) (embeddings : List Vec)
    (hpre : (addDocumentsAux db T 0 pre).2.2 = none)
    (ht : pyTruthy doc.content = true)
    (hmd : doc.metadata = none)
    (he : db.encode (db.chunk_text doc.content 500) = Except.ok embeddings) :
    db.add_documents T (pre ++ doc :: post) =
      ((addDocumentsAux db T 0 pre).1 ++ [Event.encodeCall (db.chunk_text doc.content 500)],
       (addDocumentsAux db T 0 pre).2.1,
       some Failure.attrError) ∧
    Event.encodeCall (db.chunk_text doc.content 500) ∈
      (db.add_documents T (pre ++ doc :: post)).1 := by
  have hp : processDoc db T pre.length doc =
      ([Event.encodeCall (db.chunk_text doc.content 500)], none, some Failure.attrError) :=
    processDoc_md_none db T pre.length doc embeddings ht he hmd
  have hmain : db.add_documents T (pre ++ doc :: post) =
      ((addDocumentsAux db T 0 pre).1 ++ [Event.encodeCall (db.chunk_text doc.content 500)],
       (addDocumentsAux db T 0 pre).2.1,
       some Failure.attrError) := by
    show addDocumentsAux db T 0 (pre ++ doc :: post) = _
    rw [addDocumentsAux_append db T pre (doc :: post) 0, hpre]
    simp only [Nat.zero_add]
    rw [addDocumentsAux_cons_err db T pre.length doc post Failure.attrError (by rw [hp]), hp]
    simp
  refine ⟨hmain, ?_⟩
  rw [hmain]
  simp

/-- Witness for the amended C7 at a concrete input. -/
theorem claim_C7_witness :
    pyTruthy (Document.mk (some "A") none).content = true ∧
    (Document.mk (some "A") none).metadata = none ∧
    (dbOk.add_documents 2 ([] ++ Document.mk (some "A") none :: []) =
        ((addDocumentsAux dbOk 2 0 []).1 ++
          [Event.encodeCall (dbOk.chunk_text (Document.mk (some "A") none).content 500)],
         (addDocumentsAux dbOk 2 0 []).2.1,
         some Failure.attrError) ∧
      Event.encodeCall (dbOk.chunk_text (Document.mk (some "A") none).content 500) ∈
        (dbOk.add_documents 2 ([] ++ Document.mk (some "A") none :: [])).1) :=
  ⟨rfl, rfl,
    claim_C7_amended_metadata_failure dbOk 2 [] [] (Document.mk (some "A") none)
      [([] : Vec)] rfl rfl rfl rfl⟩

/-- Claim C3: when the embedder yields a vector for the query and the
store answers with a batch-of-one response whose four fields are
singleton batches of equal inner length with ascending distances,
search returns exactly those first batch elements as flat sequences
(equal length, aligned, ascending distances) with no padding to
n_results and no error, whatever n_results was requested. -/
theorem claim_C3_result_normalization {ε : Type} (db : VectorDB ε) (q : String)
    (n : Int) (v : Vec) (vs : List Vec) (r : QueryResponse)
    (ids1 docs1 : List String) (mets1 : List Metadata) (dists1 : List Rat)
    (he : db.encode [q] = Except.ok (v :: vs))
    (hq : db.storeQuery v n = Except.ok r)
    (hi : r.ids = some [ids1]) (hd : r.documents = some [docs1])
    (hm : r.metadatas = some [mets1]) (hdist : r.distances = some [dists1])
    (hl1 : docs1.length = ids1.length) (hl2 : mets1.length = ids1.length)
    (hl3 : dists1.length = ids1.length)
    (hsort : List.Chain' (fun a b => a ≤ b) dists1) :
    db.search q n =
      ([Event.encodeCall [q], Event.queryCall v n],
       Except.ok ⟨ids1, docs1, mets1, dists1⟩) ∧
    docs1.length = ids1.length ∧ mets1.length = ids1.length ∧
    dists1.length = ids1.length ∧
    List.Chain' (fun a b => a ≤ b) dists1 := by
  refine ⟨?_, hl1, hl2, hl3, hsort⟩
  unfold VectorDB.search
  simp [he, hq, hi, hd, hm, hdist, getFlat]

/-- Witness for C3: a store holding two matches answers a request for
five; search returns exactly the two, ascending. -/
theorem claim_C3_witness :
    dbTwo.encode ["foo"] = Except.ok [([] : Vec)] ∧
    dbTwo.storeQuery ([] : Vec) 5 =
      Except.ok ⟨some [["i1", "i2"]], some [["t1", "t2"]], some [[[], []]], some [[0, 1]]⟩ ∧
    (dbTwo.search "foo" 5 =
        ([Event.encodeCall ["foo"], Event.queryCall ([] : Vec) 5],
         Except.ok ⟨["i1", "i2"], ["t1", "t2"], [[], []], [0, 1]⟩) ∧
      (["t1", "t2"] : List String).length = (["i1", "i2"] : List String).length ∧
      ([[], []] : List Metadata).length = (["i1", "i2"] : List String).length ∧
      ([0, 1] : List Rat).length = (["i1", "i2"] : List String).length ∧
      List.Chain' (fun a b => a ≤ b) ([0, 1] : List Rat)) :=
  ⟨rfl, rfl,
    claim_C3_result_normalization dbTwo "foo" 5 ([] : Vec) [] 
      ⟨some [["i1", "i2"]], some [["t1", "t2"]], some [[[], []]], some [[0, 1]]⟩
      ["i1", "i2"] ["t1", "t2"] [[], []] [0, 1]
      rfl rfl rfl rfl rfl rfl rfl rfl rfl (by norm_num)⟩

/-- Counterexample to claim C9 as stated: with n_results equal to 0
(hence not positive) and benign collaborators, search does not fail at
all, let alone with an InvalidArgument condition detected before any
collaborator call: it embeds the query, queries the store with 0, and
returns an ok result. -/
theorem claim_C9_counterexample :
    dbOk.search "foo" 0 =
      ([Event.encodeCall ["foo"], Event.queryCall ([] : Vec) 0],
       Except.ok ⟨[], [], [], []⟩) := rfl

/-- Claim C9 as amended: search performs no validation of n_results:
for every n_results (in particular every n_results not positive) the
first collaborator call issued is always the embedder call on the
query, and whenever the embedder yields a vector the store is queried
with the given n_results; no InvalidArgument condition exists before
the collaborator calls. -/
lemma search_encode_error {ε : Type} (db : VectorDB ε) (q : String) (n : Int)
    (e : ε) (he : db.encode [q] = Except.error e) :
    db.search q n = ([Event.encodeCall [q]], Except.error (Failure.collab e)) := by
  unfold VectorDB.search
  simp only [he]

lemma search_encode_nil {ε : Type} (db : VectorDB ε) (q : String) (n : Int)
    (he : db.encode [q] = Except.ok []) :
    db.search q n = ([Event.encodeCall [q]], Except.error Failure.indexError) := by
  unfold VectorDB.search
  simp only [he]

lemma search_query_error {ε : Type} (db : VectorDB ε) (q : String) (n : Int)
    (v : Vec) (vs : List Vec) (e : ε)
    (he : db.encode [q] = Except.ok (v :: vs))
    (hq : db.storeQuery v n = Except.error e) :
    db.search q n =
      ([Event.encodeCall [q], Event.queryCall v n], Except.error (Failure.collab e)) := by
  unfold VectorDB.search
  simp only [he, hq]

lemma search_query_ok {ε : Type} (db : VectorDB ε) (q : String) (n : Int)
    (v : Vec) (vs : List Vec) (r : QueryResponse)
    (he : db.encode [q] = Except.ok (v :: vs))
    (hq : db.storeQuery v n = Except.ok r) :
    db.search q n =
      ([Event.encodeCall [q], Event.queryCall v n],
       match getFlat r.ids, getFlat r.documents, getFlat r.metadatas,
             getFlat r.distances with
       | some a, some b, some c, some d => Except.ok ⟨a, b, c, d⟩
       | _, _, _, _ => Except.error Failure.indexError) := by
  unfold VectorDB.search
  simp only [he, hq]

theorem claim_C9_amended_no_validation {ε : Type} (db : VectorDB ε) (q : String)
    (n : Int) (hn : n ≤ 0) :
    (db.search q n).1.head? = some (Event.encodeCall [q]) ∧
    (∀ v vs, db.encode [q] = Except.ok (v :: vs) →
      Event.queryCall v n ∈ (db.search q n).1) := by
  cases he : db.encode [q] with
  | error e =>
    rw [search_encode_error db q n e he]
    exact ⟨rfl, fun v vs h => Except.noConfusion h⟩
  | ok vs =>
    cases vs with
    | nil =>
      rw [search_encode_nil db q n he]
      refine ⟨rfl, fun v vs h => ?_⟩
      simp at h
    | cons v rest =>
      cases hq : db.storeQuery v n with
      | error e =>
        rw [search_query_error db q n v rest e he hq]
        refine ⟨rfl, fun v2 vs2 h => ?_⟩
        simp only [Except.ok.injEq, List.cons.injEq] at h
        rw [← h.1]
        simp
      | ok r =>
        rw [search_query_ok db q n v rest r he hq]
        refine ⟨rfl, fun v2 vs2 h => ?_⟩
        simp only [Except.ok.injEq, List.cons.injEq] at h
        rw [← h.1]
        simp

/-- Witness for the amended C9 at n_results equal to 0. -/
theorem claim_C9_witness :
    (0 : Int) ≤ 0 ∧
    ((dbOk.search "bar" 0).1.head? = some (Event.encodeCall ["bar"]) ∧
      (∀ v vs, dbOk.encode ["bar"] = Except.ok (v :: vs) →
        Event.queryCall v 0 ∈ (dbOk.search "bar" 0).1)) :=
  ⟨le_refl 0, claim_C9_amended_no_validation dbOk "bar" 0 (le_refl 0)⟩

/-- An absent or batch-of-one response field flattens to some list:
the empty list when absent, the inner batch element when present. -/
lemma getFlat_none_or_singleton {α : Type} (f : Option (List (List α)))
    (h : f = none ∨ ∃ x, f = some [x]) :
    ∃ y, getFlat f = some y ∧ (f = none → y = []) ∧
      ∀ x, f = some [x] → y = x := by
  rcases h with rfl | ⟨x, rfl⟩
  · refine ⟨[], rfl, fun _ => rfl, fun x hx => ?_⟩
    exact Option.noConfusion hx
  · refine ⟨x, rfl, fun hx => ?_, fun x2 hx2 => ?_⟩
    · exact Option.noConfusion hx
    · simpa using hx2

/-- Claim C10: whenever each field of the store response is either
entirely absent or a batch-of-one, search succeeds with a result
holding exactly the four fields ids, documents, metadatas, distances,
substituting the empty list for each absent field and the first batch
element for each present one, raising no error. -/
theorem claim_C10_absent_fields {ε : Type} (db : VectorDB ε) (q : String)
    (n : Int) (v : Vec) (vs : List Vec) (r : QueryResponse)
    (he : db.encode [q] = Except.ok (v :: vs))
    (hq : db.storeQuery v n = Except.ok r)
    (hi : r.ids = none ∨ ∃ x, r.ids = some [x])
    (hd : r.documents = none ∨ ∃ x, r.documents = some [x])
    (hm : r.metadatas = none ∨ ∃ x, r.metadatas = some [x])
    (hdist : r.distances = none ∨ ∃ x, r.distances = some [x]) :
    ∃ res : SearchResult,
      db.search q n = ([Event.encodeCall [q], Event.queryCall v n], Except.ok res) ∧
      (r.ids = none → res.ids = []) ∧
      (∀ x, r.ids = some [x] → res.ids = x) ∧
      (r.documents = none → res.documents = []) ∧
      (∀ x, r.documents = some [x] → res.documents = x) ∧
      (r.metadatas = none → res.metadatas = []) ∧
      (∀ x, r.metadatas = some [x] → res.metadatas = x) ∧
      (r.distances = none → res.distances = []) ∧
      (∀ x, r.distances = some [x] → res.distances = x) := by
  obtain ⟨yi, hyi, hni, hsi⟩ := getFlat_none_or_singleton r.ids hi
  obtain ⟨yd, hyd, hnd, hsd⟩ := getFlat_none_or_singleton r.documents hd
  obtain ⟨ym, hym, hnm, hsm⟩ := getFlat_none_or_singleton r.metadatas hm
  obtain ⟨yt, hyt, hnt, hst⟩ := getFlat_none_or_singleton r.distances hdist
  refine ⟨⟨yi, yd, ym, yt⟩, ?_, fun h => hni h, fun x hx => hsi x hx,
    fun h => hnd h, fun x hx => hsd x hx, fun h => hnm h, fun x hx => hsm x hx,
    fun h => hnt h, fun x hx => hst x hx⟩
  unfold VectorDB.search
  simp [he, hq, hyi, hyd, hym, hyt]

/-- Witness for C10: a response omitting the ids and metadatas fields
altogether still yields an ok result with empty lists there. -/
theorem claim_C10_witness :
    dbMixed.encode ["foo"] = Except.ok [([] : Vec)] ∧
    dbMixed.storeQuery ([] : Vec) 5 =
      Except.ok ⟨none, some [["t1"]], none, some [[0]]⟩ ∧
    (∃ res : SearchResult,
      dbMixed.search "foo" 5 =
        ([Event.encodeCall ["foo"], Event.queryCall ([] : Vec) 5], Except.ok res) ∧
      ((⟨none, some [["t1"]], none, some [[0]]⟩ : QueryResponse).ids = none → res.ids = []) ∧
      (∀ x, (⟨none, some [["t1"]], none, some [[0]]⟩ : QueryResponse).ids = some [x] → res.ids = x) ∧
      ((⟨none, some [["t1"]], none, some [[0]]⟩ : QueryResponse).documents = none → res.documents = []) ∧
      (∀ x, (⟨none, some [["t1"]], none, some [[0]]⟩ : QueryResponse).documents = some [x] → res.documents = x) ∧
      ((⟨none, some [["t1"]], none, some [[0]]⟩ : QueryResponse).metadatas = none → res.metadatas = []) ∧
      (∀ x, (⟨none, some [["t1"]], none, some [[0]]⟩ : QueryResponse).metadatas = some [x] → res.metadatas = x) ∧
      ((⟨none, some [["t1"]], none, some [[0]]⟩ : QueryResponse).distances = none → res.distances = []) ∧
      (∀ x, (⟨none, some [["t1"]], none, some [[0]]⟩ : QueryResponse).distances = some [x] → res.distances = x)) :=
  ⟨rfl, rfl,
    claim_C10_absent_fields dbMixed "foo" 5 ([] : Vec) [] 
      ⟨none, some [["t1"]], none, some [[0]]⟩ rfl rfl
      (Or.inl rfl) (Or.inr ⟨["t1"], rfl⟩) (Or.inl rfl) (Or.inr ⟨[0], rfl⟩)⟩

lemma hardSplit_le (chunkSize step : Nat) (cs : List Char)
    (h : cs.length ≤ chunkSize) :
    hardSplit chunkSize step cs = [cs] := by
  rw [hardSplit]
  rw [dif_pos (Or.inl h)]

lemma hardSplit_gt (chunkSize step : Nat) (cs : List Char)
    (h1 : chunkSize < cs.length) (h2 : step ≠ 0) :
    hardSplit chunkSize step cs =
      cs.take chunkSize :: hardSplit chunkSize step (cs.drop step) := by
  rw [hardSplit]
  rw [dif_neg (by push_neg; exact ⟨by omega, h2⟩)]

lemma hardSplit_A_step (n : Nat) (h1 : 500 < n) :
    hardSplit 500 450 (List.replicate n 'A') =
      List.replicate 500 'A' :: hardSplit 500 450 (List.replicate (n - 450) 'A') := by
  have ht : (List.replicate n 'A').take 500 = List.replicate 500 'A' := by
    rw [List.take_replicate]
    have hmin : min 500 n = 500 := by omega
    rw [hmin]
  have hd : (List.replicate n 'A').drop 450 = List.replicate (n - 450) 'A' := by
    rw [List.drop_replicate]
  rw [hardSplit_gt 500 450 (List.replicate n 'A')
    (by rw [List.length_replicate]; omega) (by omega), ht, hd]

lemma hardSplit_A1200 :
    hardSplit 500 450 (List.replicate 1200 'A') =
      [List.replicate 500 'A', List.replicate 500 'A', List.replicate 300 'A'] := by
  have e1 : (1200 : Nat) - 450 = 750 := by norm_num
  have e2 : (750 : Nat) - 450 = 300 := by norm_num
  rw [hardSplit_A_step 1200 (by omega), e1, hardSplit_A_step 750 (by omega), e2,
    hardSplit_le 500 450 (List.replicate 300 'A') (by rw [List.length_replicate]; omega)]

lemma mk_replicate_ne_empty : String.mk (List.replicate 1200 'A') ≠ "" := by
  intro hcontr
  have h2 : List.replicate 1200 'A' = [] := congrArg String.data hcontr
  have h4 := congrArg List.length h2
  rw [List.length_replicate] at h4
  simp at h4

lemma chunk_text_A1200 :
    dbSpec.chunk_text (some (String.mk (List.replicate 1200 'A'))) 500 =
      [String.mk (List.replicate 500 'A'), String.mk (List.replicate 500 'A'),
       String.mk (List.replicate 300 'A')] := by
  simp only [VectorDB.chunk_text]
  rw [if_neg mk_replicate_ne_empty]
  show specSplitText 500 (500 / 10) (String.mk (List.replicate 1200 'A')) = _
  unfold specSplitText
  show (hardSplit 500 (500 - 500 / 10) (List.replicate 1200 'A')).map String.mk = _
  have hstep : (500 : Nat) - 500 / 10 = 450 := by norm_num
  rw [hstep, hardSplit_A1200]
  rfl

/-- Claim C8: on the text of 1200 repeated characters with the default
chunk size of 500 (overlap 50), the spec-modelled boundary-free
splitter used through chunk_text yields exactly 3 chunks of lengths
500, 500 and 300 (never exceeding the target size), and each chunk
after the first begins with the 50 characters that end the previous
chunk. -/
theorem claim_C8_hard_split_example :
    dbSpec.chunk_text (some (String.mk (List.replicate 1200 'A'))) 500 =
      [String.mk (List.replicate 500 'A'), String.mk (List.replicate 500 'A'),
       String.mk (List.replicate 300 'A')] ∧
    (∀ c ∈ dbSpec.chunk_text (some (String.mk (List.replicate 1200 'A'))) 500,
      c.length ≤ 500) ∧
    ((dbSpec.chunk_text (some (String.mk (List.replicate 1200 'A'))) 500)[1]?).map
        (fun s => s.data.take 50) =
      ((dbSpec.chunk_text (some (String.mk (List.replicate 1200 'A'))) 500)[0]?).map
        (fun s => s.data.drop 450) ∧
    ((dbSpec.chunk_text (some (String.mk (List.replicate 1200 'A'))) 500)[2]?).map
        (fun s => s.data.take 50) =
      ((dbSpec.chunk_text (some (String.mk (List.replicate 1200 'A'))) 500)[1]?).map
        (fun s => s.data.drop 450) := by
  have hlen : ∀ n : Nat, (String.mk (List.replicate n 'A')).length = n := by
    intro n
    show (List.replicate n 'A').length = n
    rw [List.length_replicate]
  refine ⟨chunk_text_A1200, ?_, ?_, ?_⟩
  · rw [chunk_text_A1200]
    intro c hc
    simp only [List.mem_cons, List.not_mem_nil, or_false] at hc
    rcases hc with rfl | rfl | rfl
    · rw [hlen]
    · rw [hlen]
    · rw [hlen]; omega
  · rw [chunk_text_A1200]
    show some ((List.replicate 500 'A').take 50) = some ((List.replicate 500 'A').drop 450)
    rw [List.take_replicate, List.drop_replicate]
    norm_num
  · rw [chunk_text_A1200]
    show some ((List.replicate 300 'A').take 50) = some ((List.replicate 500 'A').drop 450)
    rw [List.take_replicate, List.drop_replicate]
    norm_num
